import Mathlib

/-!
Verification of the interview-question extraction logic of the
makeprepwithme repository.

The repository contains two near-duplicate implementations of the logic that
recovers a single interview question from raw language-model output:

* `parseModelQuestion` in `src/scripts/test_parse.js` (offline test script);
* the extraction code inside `generateQuestion`, together with its helper
  `keepOnlyFirstQuestion`, in the Gemini service file (`src/unnamed/part_004`).

Strings are modelled as `List Char` (`Str`).  JavaScript regular-expression
operations used by the source are modelled by hand-written scanning functions;
`JSON.parse` is modelled by an executable fuel-indexed JSON parser.  All
definitions are executable so concrete runs of the source can be replayed by
`decide` / `rfl`.
-/

/-- Strings, modelled as lists of characters. -/
abbrev Str := List Char

/-- JavaScript whitespace (the `\s` class and the characters removed by
`String.prototype.trim`): space, tab, LF, CR, vertical tab, form feed,
no-break space, the line/paragraph separators and the BOM. -/
def isWS (c : Char) : Bool :=
  c = ' ' || c = '\t' || c = '\n' || c = '\r' ||
  c = '\x0b' || c = '\x0c' || c = '\xa0' ||
  c = '\u2028' || c = '\u2029' || c = '\uFEFF'

/-- Drop leading JavaScript whitespace. -/
def trimL (s : Str) : Str := s.dropWhile isWS

/-- Drop trailing JavaScript whitespace. -/
def trimR : Str → Str
  | [] => []
  | c :: cs =>
    match trimR cs with
    | [] => if isWS c then [] else [c]
    | r => c :: r

/-- Model of `String.prototype.trim`. -/
def trim (s : Str) : Str := trimR (trimL s)

/-- Model of the JavaScript `\w` word-character class `[A-Za-z0-9_]`
(used for the `\b` word boundary). -/
def isWordChar (c : Char) : Bool := c.isAlpha || c.isDigit || c = '_'

/-- Strip a literal (case-sensitive) prefix, returning the remainder. -/
def dropLit : Str → Str → Option Str
  | [], s => some s
  | _ :: _, [] => none
  | w :: ws, c :: cs => if c = w then dropLit ws cs else none

/-- Strip a case-insensitive prefix (`w` is given in lower case),
returning the remainder.  Models matching a literal under the `/i` flag. -/
def ciStrip : Str → Str → Option Str
  | [], s => some s
  | _ :: _, [] => none
  | w :: ws, c :: cs => if c.toLower = w then ciStrip ws cs else none

/-- Model of the anchored replace `str.replace(/^[\d]+[\.\)]\s*/, '')`
(one or more digits, then a mandatory `.` or `)`, then optional whitespace);
used for `cleanText` in the test script and for the numbered-item stripping
in line-selection step 3 of both copies. -/
def stripNumReq (s : Str) : Str :=
  let ds := s.takeWhile Char.isDigit
  if ds = [] then s
  else
    match s.dropWhile Char.isDigit with
    | '.' :: r => r.dropWhile isWS
    | ')' :: r => r.dropWhile isWS
    | _ => s

/-- Model of the anchored replace `str.replace(/^[\d]+[\.]?\)?\s*/, '')`
(one or more digits, then an optional `.`, then an optional `)`, then optional
whitespace); used by `generateQuestion` and `keepOnlyFirstQuestion`. -/
def stripNumOpt (s : Str) : Str :=
  let ds := s.takeWhile Char.isDigit
  if ds = [] then s
  else
    let r0 := s.dropWhile Char.isDigit
    let r1 := match r0 with
      | '.' :: r => r
      | _ => r0
    let r2 := match r1 with
      | ')' :: r => r
      | _ => r1
    r2.dropWhile isWS

/-- Model of the anchored, case-sensitive replace
`str.replace(/^Question\s+[\d]+[\:\-\s]*/, '')` applied when computing
`cleanText` in both copies. -/
def stripQuestionNum (s : Str) : Str :=
  match dropLit ('Q' :: 'u' :: 'e' :: 's' :: 't' :: 'i' :: 'o' :: 'n' :: []) s with
  | none => s
  | some r0 =>
    if r0.takeWhile isWS = [] then s
    else
      let r1 := r0.dropWhile isWS
      if r1.takeWhile Char.isDigit = [] then s
      else (r1.dropWhile Char.isDigit).dropWhile (fun c => c = ':' || c = '-' || isWS c)

/-- Label trailer class `[:\s]*` of the test script's
`replace(/^(Question|Q|Ask)[:\s]*/i, '')`. -/
def labelTrailTP (c : Char) : Bool := c = ':' || isWS c

/-- Label trailer class `[:\s-]*` of `keepOnlyFirstQuestion`'s
`replace(/^(Question|Q|Ask)[:\s-]*/i, '')`. -/
def labelTrailGQ (c : Char) : Bool := c = ':' || isWS c || c = '-'

/-- The lower-cased label alternatives `Question|Q|Ask`, in the source's
alternation order (`Question` is tried before `Q`, then `Ask`). -/
def labelWords : List Str :=
  [ 'q' :: 'u' :: 'e' :: 's' :: 't' :: 'i' :: 'o' :: 'n' :: []
  , 'q' :: []
  , 'a' :: 's' :: 'k' :: [] ]

/-- Model of the anchored case-insensitive replace
`str.replace(/^(Question|Q|Ask)<trail>*/i, '')`, parameterised by the trailer
character class. -/
def stripLabel (trail : Char → Bool) (s : Str) : Str :=
  match labelWords.firstM (fun w => ciStrip w s) with
  | some r => r.dropWhile trail
  | none => s

/-- Label stripping as done in the test script (`[:\s]*` trailer). -/
def stripLabelTP (s : Str) : Str := stripLabel labelTrailTP s

/-- Label stripping as done in `keepOnlyFirstQuestion` (`[:\s-]*` trailer). -/
def stripLabelGQ (s : Str) : Str := stripLabel labelTrailGQ s

/-- Convert a Lean string literal to the `Str` model. -/
def strL (s : String) : Str := s.data

/-- The question words of the regex
`/\b(what|how|why|explain|describe|define|implement|compare|difference|when|where|which)\b/i`
used in line-selection step 2 of both copies, in source order. -/
def questionWords : List Str :=
  [ strL "what", strL "how", strL "why", strL "explain", strL "describe",
    strL "define", strL "implement", strL "compare", strL "difference",
    strL "when", strL "where", strL "which" ]

/-- The connector alternatives of `keepOnlyFirstQuestion`'s split regex
`/\b(?:Also|Additionally|And then|Next|Follow up|Follow-up|As well as)\b/i`,
lower-cased, in source order. -/
def connectorWords : List Str :=
  [ strL "also", strL "additionally", strL "and then", strL "next",
    strL "follow up", strL "follow-up", strL "as well as" ]

/-- Does one of the given lower-cased alternatives match (case-insensitively)
at the head of `s`, with a word boundary after it?  (Every alternative ends in
a word character, so the trailing `\b` demands end-of-string or a non-word
character next.) -/
def wordHitAt (words : List Str) (s : Str) : Bool :=
  words.any fun w =>
    match ciStrip w s with
    | some [] => true
    | some (c :: _) => !isWordChar c
    | none => false

/-- Scan for a `\b`-delimited hit of one of `words` anywhere in the string;
`prevW` records whether the previous character was a word character (every
alternative starts with a word character, so the leading `\b` demands a
non-word character, or nothing, before the hit). -/
def wordScan (words : List Str) : Str → Bool → Bool
  | [], _ => false
  | c :: cs, prevW =>
    (!prevW && wordHitAt words (c :: cs)) || wordScan words cs (isWordChar c)

/-- Model of `questionWordRegex.test(l)` for the question-word regex above. -/
def questionWordTest (l : Str) : Bool := wordScan questionWords l false

/-- Characters of `s` strictly before the first `\b`-delimited connector hit
(`prevW` as in `wordScan`).  Models `s.split(<connector regex>)[0]`. -/
def cutConnAux : Str → Bool → Str
  | [], _ => []
  | c :: cs, prevW =>
    if !prevW && wordHitAt connectorWords (c :: cs) then []
    else c :: cutConnAux cs (isWordChar c)

/-- Model of `candidate.split(/\b(?:Also|...|As well as)\b/i)[0]`. -/
def cutConn (s : Str) : Str := cutConnAux s false

/-- Model of `text.replace(/\s+/g, ' ')`: every maximal whitespace run is
replaced by a single space.  `inRun` records whether the previous character
belonged to the current whitespace run. -/
def collapseWSAux : Str → Bool → Str
  | [], _ => []
  | c :: cs, inRun =>
    if isWS c then
      if inRun then collapseWSAux cs true else ' ' :: collapseWSAux cs true
    else c :: collapseWSAux cs false

/-- Whitespace-run collapsing as performed by `keepOnlyFirstQuestion`. -/
def collapseWS (s : Str) : Str := collapseWSAux s false

/-- Model of `String.prototype.search` against a character class: index of the
first character satisfying `p`, or `none` (JavaScript returns `-1`). -/
def searchIdx (p : Char → Bool) : Str → Option Nat
  | [] => none
  | c :: cs => if p c then some 0 else (searchIdx p cs).map (· + 1)

/-- Sentence-ending characters of the regex `/[.!]/` in
`keepOnlyFirstQuestion`. -/
def isSentEnd (c : Char) : Bool := c = '.' || c = '!'

/-- Model of `text.split(/\r?\n/)`: split on `\n`, treating a directly
preceding `\r` as part of the separator. -/
def splitLines : Str → List Str
  | [] => [[]]
  | '\r' :: '\n' :: rest => [] :: splitLines rest
  | '\n' :: rest => [] :: splitLines rest
  | c :: rest =>
    match splitLines rest with
    | [] => [[c]]
    | l :: ls => (c :: l) :: ls

/-- Model of `cleanText.split(/\r?\n/).map(l => l.trim()).filter(Boolean)`:
the candidate-line sequence of the heuristic fallback. -/
def linesOf (t : Str) : List Str := ((splitLines t).map trim).filter (fun l => !l.isEmpty)

/-- Is this the question-mark character? -/
def isQM (c : Char) : Bool := c = '?'

/-- Model of `l.includes('?')`. -/
def hasQM (l : Str) : Bool := l.any isQM

/-- Line selection, shared verbatim by both copies:

1. the first line containing `?`;
2. else the first line passing the question-word regex;
3. else the first stripped numbered item longer than 5 characters
   (`lines.map(l => l.replace(/^[\d]+[\.)]\s*/, '')).find(l => l && l.length > 5)`),
   falling back to `lines[0] || ''`. -/
def selectCandidate (lines : List Str) : Str :=
  match lines.find? hasQM with
  | some l => l
  | none =>
    match lines.find? questionWordTest with
    | some l => l
    | none =>
      match (lines.map stripNumReq).find? (fun l => decide (5 < l.length)) with
      | some l => l
      | none => lines.headD []

/-- Model of the first-question truncation shared by both copies:

```
if (candidateLine.includes('?')) {
  const firstQ = candidateLine.split('?')[0].trim();
  candidateLine = firstQ ? firstQ + '?' : candidateLine;
}
```
-/
def truncFirstQ (c : Str) : Str :=
  if hasQM c then
    let fq := trim (c.takeWhile (fun x => !isQM x))
    if fq = [] then c else fq ++ ['?']
  else c

/-- Model of
`candidateLine ? (candidateLine.endsWith('?') ? candidateLine : candidateLine + '?') : ''`. -/
def finalizeQ (c : Str) : Str :=
  if c = [] then []
  else if c.getLast? = some '?' then c
  else c ++ ['?']

/-- JSON values as produced by `JSON.parse` (number literals keep their
source characters, since the extraction logic never inspects numbers). -/
inductive JVal where
  | null : JVal
  | bool (b : Bool) : JVal
  | num (s : Str) : JVal
  | jstr (s : Str) : JVal
  | arr (xs : List JVal) : JVal
  | obj (fs : List (Str × JVal)) : JVal
deriving Repr

/-- JSON whitespace (strictly smaller than the JavaScript `\s` class). -/
def jWS (c : Char) : Bool := c = ' ' || c = '\t' || c = '\n' || c = '\r'

/-- Skip JSON whitespace. -/
def skipJWS (s : Str) : Str := s.dropWhile jWS

/-- Value of one hexadecimal digit, for the `\uXXXX` escape form. -/
def hexDigitVal (c : Char) : Option Nat :=
  if c.isDigit then some (c.toNat - 48)
  else if 'a' ≤ c.toLower && c.toLower ≤ 'f' then some (c.toLower.toNat - 87)
  else none

/-- Combine four hexadecimal digits into a code unit. -/
def hexQuad (a b c d : Char) : Option Nat :=
  match hexDigitVal a, hexDigitVal b, hexDigitVal c, hexDigitVal d with
  | some x, some y, some z, some w => some (x * 4096 + y * 256 + z * 16 + w)
  | _, _, _, _ => none

/-- The single-character escapes of the JSON string grammar. -/
def simpleEsc (e : Char) : Option Char :=
  if e = '"' then some '"'
  else if e = '\\' then some '\\'
  else if e = '/' then some '/'
  else if e = 'b' then some '\x08'
  else if e = 'f' then some '\x0c'
  else if e = 'n' then some '\n'
  else if e = 'r' then some '\r'
  else if e = 't' then some '\t'
  else none

/-- Decode the body of a JSON string literal, accumulating the decoded
characters in reverse; the opening `"` has already been consumed, and the
remainder after the closing `"` is returned alongside the content.
Unescaped control characters below `U+0020` and bad escapes are rejected.
(A lone backslash right before the closing quote falls into the plain-char
arm and then runs off the end, so it also yields `none`, matching the
`JSON.parse` error.) -/
def parseJStringAux : Str → Str → Option (Str × Str)
  | _, [] => none
  | acc, '"' :: rest => some (acc.reverse, rest)
  | acc, '\\' :: e :: rest =>
    if e = 'u' then
      match rest with
      | a :: b :: c :: d :: r2 =>
        match hexQuad a b c d with
        | some n => parseJStringAux (Char.ofNat n :: acc) r2
        | none => none
      | _ => none
    else
      match simpleEsc e with
      | some c => parseJStringAux (c :: acc) rest
      | none => none
  | acc, c :: rest =>
    if c.toNat < 32 then none else parseJStringAux (c :: acc) rest

/-- Decode a JSON string literal body from its start. -/
def parseJString (s : Str) : Option (Str × Str) := parseJStringAux [] s

/-- Optional fraction part `.[0-9]+` of a JSON number (consumed only when
well formed, otherwise left for the caller, which matches `JSON.parse`
failing on the leftover). -/
def fracPart (s : Str) : Str × Str :=
  match s with
  | '.' :: r =>
    let ds := r.takeWhile Char.isDigit
    if ds = [] then ([], s) else ('.' :: ds, r.dropWhile Char.isDigit)
  | _ => ([], s)

/-- Optional exponent part `[eE][+-]?[0-9]+` of a JSON number. -/
def expPart (s : Str) : Str × Str :=
  match s with
  | c :: r =>
    if c = 'e' || c = 'E' then
      let sr : Str × Str :=
        match r with
        | d :: r2 => if d = '+' || d = '-' then ([d], r2) else ([], r)
        | [] => ([], r)
      let ds := sr.2.takeWhile Char.isDigit
      if ds = [] then ([], s) else (c :: (sr.1 ++ ds), sr.2.dropWhile Char.isDigit)
    else ([], s)
  | [] => ([], s)

/-- Parse a JSON number `-?(0|[1-9][0-9]*)(\.[0-9]+)?([eE][+-]?[0-9]+)?`;
`s` starts at the `-` or first digit. -/
def parseJNum (s : Str) : Option (Str × Str) :=
  let p : Str × Str :=
    match s with
    | '-' :: r => (['-'], r)
    | _ => ([], s)
  match p.2 with
  | [] => none
  | '0' :: r =>
    let f := fracPart r
    let e := expPart f.2
    some (p.1 ++ '0' :: (f.1 ++ e.1), e.2)
  | c :: _ =>
    if c.isDigit then
      let ds := p.2.takeWhile Char.isDigit
      let f := fracPart (p.2.dropWhile Char.isDigit)
      let e := expPart f.2
      some (p.1 ++ ds ++ f.1 ++ e.1, e.2)
    else none

/-- Parser modes for the fuel-indexed JSON parser: a JSON element
(value with surrounding whitespace), a bare value, the inside of an object
or array (after the opening bracket), and member/element lists with the
fields parsed so far. -/
inductive JMode where
  | elem : JMode
  | val : JMode
  | objm : JMode
  | arrm : JMode
  | members (acc : List (Str × JVal)) : JMode
  | elems (acc : List JVal) : JMode

/-- Fuel-indexed JSON parser implementing the `JSON.parse` grammar
(ECMA-404): returns the parsed value and the unconsumed remainder. -/
def jparse : Nat → JMode → Str → Option (JVal × Str)
  | 0, _, _ => none
  | Nat.succ fuel, m, s =>
    match m with
    | JMode.elem =>
      match jparse fuel JMode.val (skipJWS s) with
      | some (v, r) => some (v, skipJWS r)
      | none => none
    | JMode.val =>
      match s with
      | [] => none
      | c :: r =>
        if c = '"' then
          match parseJString r with
          | some p => some (JVal.jstr p.1, p.2)
          | none => none
        else if c = '{' then jparse fuel JMode.objm r
        else if c = '[' then jparse fuel JMode.arrm r
        else if c = 't' then
          match dropLit (strL "rue") r with
          | some r2 => some (JVal.bool true, r2)
          | none => none
        else if c = 'f' then
          match dropLit (strL "alse") r with
          | some r2 => some (JVal.bool false, r2)
          | none => none
        else if c = 'n' then
          match dropLit (strL "ull") r with
          | some r2 => some (JVal.null, r2)
          | none => none
        else if c = '-' || c.isDigit then
          match parseJNum s with
          | some p => some (JVal.num p.1, p.2)
          | none => none
        else none
    | JMode.objm =>
      match skipJWS s with
      | '}' :: r => some (JVal.obj [], r)
      | s1 => jparse fuel (JMode.members []) s1
    | JMode.arrm =>
      match skipJWS s with
      | ']' :: r => some (JVal.arr [], r)
      | _ => jparse fuel (JMode.elems []) s
    | JMode.members acc =>
      match skipJWS s with
      | '"' :: r =>
        match parseJString r with
        | none => none
        | some (k, r1) =>
          match skipJWS r1 with
          | ':' :: r3 =>
            match jparse fuel JMode.elem r3 with
            | none => none
            | some (v, r4) =>
              match r4 with
              | ',' :: r5 => jparse fuel (JMode.members (acc ++ [(k, v)])) r5
              | '}' :: r5 => some (JVal.obj (acc ++ [(k, v)]), r5)
              | _ => none
          | _ => none
      | _ => none
    | JMode.elems acc =>
      match jparse fuel JMode.elem s with
      | none => none
      | some (v, r) =>
        match r with
        | ',' :: r2 => jparse fuel (JMode.elems (acc ++ [v])) r2
        | ']' :: r2 => some (JVal.arr (acc ++ [v]), r2)
        | _ => none

/-- Model of `JSON.parse`: parse one element and require that the whole
input is consumed; any parse error surfaces as `none` (the source wraps the
call in `try`/`catch`). -/
def jsonParse (s : Str) : Option JVal :=
  match jparse (4 * s.length + 16) JMode.elem s with
  | some (v, []) => some v
  | _ => none

/-- Property lookup on a parsed object: with duplicate keys, `JSON.parse`
keeps the last occurrence. -/
def lookupLast (fs : List (Str × JVal)) (k : Str) : Option JVal :=
  (fs.reverse.find? (fun p => p.1 = k)).map (fun p => p.2)

/-- Model of `parsed && typeof parsed.question === 'string'`: the value of a
string-typed own property `question` of a parsed object; `none` for `null`,
non-objects, a missing field or a non-string field. -/
def questionField : JVal → Option Str
  | JVal.obj fs =>
    match lookupLast fs (strL "question") with
    | some (JVal.jstr q) => some q
    | _ => none
  | _ => none

/-- Model of `raw.match(/\{[\s\S]*\}/)`: the greedy brace-delimited substring,
from the first `{` through the last `}`, provided some `}` occurs after the
first `{`. -/
def braceMatch (s : Str) : Option Str :=
  let t := s.dropWhile (fun c => c ≠ '{')
  match t with
  | [] => none
  | _ :: rest =>
    if rest.any (fun c => c = '}') then
      some ((t.reverse.dropWhile (fun c => c ≠ '}')).reverse)
    else none

/-- The greedy-JSON extraction step shared verbatim by both copies:

```
const jsonMatch = raw.match(/\{[\s\S]*\}/);
if (jsonMatch) {
  const parsed = JSON.parse(jsonMatch[0]);
  if (parsed && typeof parsed.question === 'string' && parsed.question.trim().length > 0) {
    return parsed.question.trim();
  }
}
```

A `JSON.parse` exception is caught and surfaces as `none`. -/
def jsonExtract (raw : Str) : Option Str :=
  match braceMatch raw with
  | none => none
  | some sub =>
    match jsonParse sub with
    | none => none
    | some v =>
      match questionField v with
      | some q => if trim q = [] then none else some (trim q)
      | none => none

/-- `cleanText` of the test script:
`raw.replace(/^[\d]+[\.\)]\s*/, '').replace(/^Question\s+[\d]+[\:\-\s]*/, '').trim()`. -/
def cleanTextTP (raw : Str) : Str := trim (stripQuestionNum (stripNumReq raw))

/-- The selected candidate line of the test script after its normalization
`(candidateLine || '').replace(/^[\d]+[\.\)]\s*/, '').replace(/^(Question|Q|Ask)[:\s]*/i, '').trim()`. -/
def tpCandidate (raw : Str) : Str :=
  trim (stripLabelTP (stripNumReq (selectCandidate (linesOf (cleanTextTP raw)))))

/-- The test script's `question` variable: first-question truncation followed
by the trailing-`?` enforcement. -/
def tpQuestion (raw : Str) : Str := finalizeQ (truncFirstQ (tpCandidate raw))

/-- The shared final rejection step
`if (!question || question === '?') return null; return question;`
(in `generateQuestion` the `null` is the user-facing retry message). -/
def finalGuard (q : Str) : Option Str :=
  if q = [] ∨ q = ['?'] then none else some q

/-- Model of `parseModelQuestion` from `src/scripts/test_parse.js`:
trim the input, try the greedy-JSON extraction, else run the heuristic
fallback; `null` (here `none`) when the final candidate is empty or `"?"`. -/
def parseModelQuestion (raw0 : Str) : Option Str :=
  match jsonExtract (trim raw0) with
  | some q => some q
  | none => finalGuard (tpQuestion (trim raw0))

/-- Model of `candidate.search(/[.!]/)` followed by
`candidate.slice(0, sentenceEnd + 1).trim()` in `keepOnlyFirstQuestion`. -/
def sentTrunc (c : Str) : Str :=
  match searchIdx isSentEnd c with
  | some i => trim (c.take (i + 1))
  | none => c

/-- The final truncation step of `keepOnlyFirstQuestion`: first-`?`
truncation when a `?` is present, otherwise `sentTrunc`. -/
def gqCore (c : Str) : Str := if hasQM c then truncFirstQ c else sentTrunc c

/-- Model of the helper `keepOnlyFirstQuestion` inside `generateQuestion`
(`src/unnamed/part_004`): collapse whitespace runs, strip leading numbering
and `Question|Q|Ask` labels, drop everything from the first connector word
on, then truncate at the first `?` (when the text before it is non-blank) or,
with no `?` present, just after the first `.` or `!`. -/
def keepOnlyFirstQuestion (text : Str) : Str :=
  if text = [] then []
  else gqCore (trim (cutConn (trim (stripLabelGQ (stripNumOpt (trim (collapseWS text)))))))

/-- First step of `generateQuestion`'s extraction: `JSON.parse` of the whole
trimmed response, returning `keepOnlyFirstQuestion(parsed.question)` when
that is non-empty (on any failure the caller falls through). -/
def gqJsonWhole (raw : Str) : Option Str :=
  match jsonParse raw with
  | none => none
  | some v =>
    match questionField v with
    | none => none
    | some q =>
      if keepOnlyFirstQuestion q = [] then none
      else some (keepOnlyFirstQuestion q)

/-- `cleanText` of `generateQuestion`'s fallback:
`raw.replace(/^[\d]+[\.]?\)?\s*/, '').replace(/^Question\s+[\d]+[\:\-\s]*/, '').trim()`. -/
def cleanTextGQ (raw : Str) : Str := trim (stripQuestionNum (stripNumOpt raw))

/-- `generateQuestion`'s fallback candidate:
`candidateLine = keepOnlyFirstQuestion(candidateLine || '')`. -/
def gqCandidate (raw : Str) : Str :=
  keepOnlyFirstQuestion (selectCandidate (linesOf (cleanTextGQ raw)))

/-- `generateQuestion`'s fallback `question` variable. -/
def gqQuestion (raw : Str) : Str := finalizeQ (gqCandidate raw)

/-- Model of the extraction inside `generateQuestion`
(`src/unnamed/part_004`, lines 164-253), as a function of the trimmed
response text: whole-text `JSON.parse` first, then the greedy-JSON step,
then the heuristic fallback.  Returning the user-facing retry message
(`"I'm having trouble coming up with a question right now. ..."`) is
modelled as `none`; the debug logging block is side-effect-only and is
omitted. -/
def gqExtract (raw0 : Str) : Option Str :=
  match gqJsonWhole (trim raw0) with
  | some q => some q
  | none =>
    match jsonExtract (trim raw0) with
    | some q => some q
    | none => finalGuard (gqQuestion (trim raw0))

/-- Model of the JavaScript argument coercion `(raw || '')`: a missing
(`null`/`undefined`) argument becomes the empty string; the only falsy
string is `''`, which stays `''`. -/
def orEmpty : Option Str → Str
  | none => []
  | some s => if s = [] then [] else s

/-- The public interface of `parseModelQuestion`, which tolerates a missing
argument via `raw = (raw || '').trim()`. -/
def parseModelQuestionJS (raw : Option Str) : Option Str :=
  parseModelQuestion (orEmpty raw)

/-- Line selection as worded by the specification: first line containing
`?`; else first line passing the question-word test; else the first per-line
stripped entry of length greater than 5; else the literal first line; else
the empty string.  (Stated with `filter`/`head?` instead of the source's
`find` chain; used to check claim C6.) -/
def selectCandidateSpec (lines : List Str) : Str :=
  ((((lines.filter hasQM).head?).orElse fun _ =>
    (((lines.filter questionWordTest).head?).orElse fun _ =>
      ((((lines.map stripNumReq).filter (fun l => decide (5 < l.length))).head?).orElse fun _ =>
        lines.head?))).getD [])

/-- Whitespace-run collapsing, restated: of each maximal whitespace run a
single space is kept (written as a two-characters-at-a-time recursion; used
to check claim C8 against `collapseWS`). -/
def collapseDesc : Str → Str
  | [] => []
  | [c] => if isWS c then [' '] else [c]
  | c :: d :: cs =>
    if isWS c && isWS d then collapseDesc (d :: cs)
    else (if isWS c then ' ' else c) :: collapseDesc (d :: cs)

/-- Does a `\b`-delimited connector hit start at index `i` of `s`?  The
boundary before index `0` is decided by `b` (whether a word character
precedes the scanned text). -/
def connBoundaryAtB (s : Str) (b : Bool) (i : Nat) : Bool :=
  (if i = 0 then !b else !isWordChar (s.getD (i - 1) ' ')) &&
    wordHitAt connectorWords (s.drop i)

/-- Index of the first `\b`-delimited connector hit of `s` (length of `s`
when there is none), found by searching all indices. -/
def firstIdxB (s : Str) (b : Bool) : Nat :=
  ((((List.range s.length).filter (connBoundaryAtB s b)).head?)).getD s.length

/-- Connector truncation, restated: keep exactly the characters before the
first connector occurrence (used to check claim C8 against `cutConn`). -/
def connCutDesc (s : Str) : Str := s.take (firstIdxB s false)

/-- Sentence-end truncation, restated: cut just after the first `.` or `!`
located through `takeWhile` instead of `search`. -/
def sentTruncDesc (c : Str) : Str :=
  if (c.takeWhile (fun x => !isSentEnd x)).length < c.length
  then trim (c.take ((c.takeWhile (fun x => !isSentEnd x)).length + 1))
  else c

/-- Final truncation step, restated with `sentTruncDesc`. -/
def gqCoreDesc (c : Str) : Str := if hasQM c then truncFirstQ c else sentTruncDesc c

/-- `keepOnlyFirstQuestion` as described by claim C8: collapse whitespace
runs to single spaces, strip a leading numbering or `Question|Q|Ask` label,
discard everything from the first connector word onward, and, when no `?`
remains, truncate just after the first `.` or `!` (the interleaved trims and
the first-`?` branch are the source's). -/
def keepOnlyFirstQuestionDesc (text : Str) : Str :=
  if text = [] then []
  else gqCoreDesc (trim (connCutDesc (trim (stripLabelGQ (stripNumOpt (trim (collapseDesc text)))))))

theorem trimR_cons (c : Char) (cs : Str) :
    trimR (c :: cs) =
      match trimR cs with
      | [] => if isWS c then [] else [c]
      | r => c :: r := rfl

theorem trimR_cons_of_nil {cs : Str} (h : trimR cs = []) (c : Char) :
    trimR (c :: cs) = if isWS c then [] else [c] := by
  rw [trimR_cons, h]

theorem trimR_cons_of_ne {cs : Str} (h : trimR cs ≠ []) (c : Char) :
    trimR (c :: cs) = c :: trimR cs := by
  rw [trimR_cons]
  cases hcs : trimR cs with
  | nil => exact absurd hcs h
  | cons x xs => rfl

theorem trimR_length_le : ∀ s : Str, (trimR s).length ≤ s.length := by
  intro s
  induction s with
  | nil => simp [trimR]
  | cons c cs ih =>
    by_cases h : trimR cs = []
    · rw [trimR_cons_of_nil h]
      split <;> simp
    · rw [trimR_cons_of_ne h]
      simpa using Nat.succ_le_succ ih

theorem trimL_length_le (s : Str) : (trimL s).length ≤ s.length :=
  (List.dropWhile_sublist isWS).length_le

theorem trimR_cons_shape (c : Char) (cs : Str) :
    trimR (c :: cs) = [] ∨ ∃ r, trimR (c :: cs) = c :: r := by
  by_cases h : trimR cs = []
  · rw [trimR_cons_of_nil h]
    by_cases hc : isWS c
    · left; simp [hc]
    · right; exact ⟨[], by simp [hc]⟩
  · right; exact ⟨trimR cs, trimR_cons_of_ne h c⟩

theorem trimR_idem : ∀ s : Str, trimR (trimR s) = trimR s := by
  intro s
  induction s with
  | nil => rfl
  | cons c cs ih =>
    by_cases h : trimR cs = []
    · rw [trimR_cons_of_nil h]
      by_cases hc : isWS c
      · simp [hc, trimR]
      · simp only [hc, if_false, Bool.false_eq_true]
        rw [show ([c] : Str) = c :: [] from rfl, @trimR_cons_of_nil [] rfl c]
        simp [hc]
    · rw [trimR_cons_of_ne h, trimR_cons_of_ne (by rw [ih]; exact h), ih]

theorem trimR_append_last {a : Char} (ha : isWS a = false) :
    ∀ s : Str, trimR (s ++ [a]) = s ++ [a] := by
  intro s
  induction s with
  | nil =>
    rw [List.nil_append, show ([a] : Str) = a :: [] from rfl, @trimR_cons_of_nil [] rfl a]
    simp [ha]
  | cons c cs ih =>
    rw [List.cons_append, trimR_cons_of_ne (by rw [ih]; simp), ih]

theorem trimL_cons_of_not_ws {c : Char} (h : isWS c = false) (cs : Str) :
    trimL (c :: cs) = c :: cs := by
  simp [trimL, List.dropWhile_cons, h]

theorem trimL_head_not_ws : ∀ (s : Str) (c : Char) (t : Str),
    trimL s = c :: t → isWS c = false := by
  intro s
  induction s with
  | nil => intro c t h; simp [trimL] at h
  | cons a as ih =>
    intro c t h
    by_cases ha : isWS a
    · rw [show trimL (a :: as) = trimL as by simp [trimL, List.dropWhile_cons, ha]] at h
      exact ih c t h
    · rw [trimL_cons_of_not_ws (by simpa using ha) as] at h
      cases h
      simpa using ha

theorem trim_idem : ∀ s : Str, trim (trim s) = trim s := by
  intro s
  unfold trim
  cases h : trimL s with
  | nil => simp [trimL, trimR]
  | cons c t =>
    have hc : isWS c = false := trimL_head_not_ws s c t h
    rcases trimR_cons_shape c t with hsh | ⟨r, hsh⟩
    · rw [hsh]; simp [trimL, trimR]
    · rw [hsh, trimL_cons_of_not_ws hc, ← hsh, trimR_idem]

theorem trimL_eq_self_of_trim_eq {s : Str} (h : trim s = s) : trimL s = s := by
  have h1 : (trimR (trimL s)).length ≤ (trimL s).length := trimR_length_le _
  have h3 : trimR (trimL s) = s := h
  have hlen : (trimL s).length = s.length := by
    have h2 : (trimL s).length ≤ s.length := trimL_length_le s
    rw [h3] at h1; omega
  exact (List.dropWhile_sublist isWS).eq_of_length hlen

theorem head_not_ws_of_trim_eq {c : Char} {t : Str} (h : trim (c :: t) = c :: t) :
    isWS c = false := by
  have hL : trimL (c :: t) = c :: t := trimL_eq_self_of_trim_eq h
  exact trimL_head_not_ws (c :: t) c t hL

theorem trim_append_last {a : Char} {s : Str} (ha : isWS a = false)
    (hs : trim s = s) (hne : s ≠ []) : trim (s ++ [a]) = s ++ [a] := by
  cases s with
  | nil => exact absurd rfl hne
  | cons c t =>
    have hc : isWS c = false := head_not_ws_of_trim_eq hs
    unfold trim
    rw [show (c :: t) ++ [a] = c :: (t ++ [a]) from rfl,
      trimL_cons_of_not_ws hc (t ++ [a])]
    exact trimR_append_last ha (c :: t)

theorem trim_nil : trim [] = [] := rfl

theorem isWS_qm : isWS '?' = false := rfl

theorem truncFirstQ_trimmed {c : Str} (h : trim c = c) :
    trim (truncFirstQ c) = truncFirstQ c := by
  unfold truncFirstQ
  by_cases hq : hasQM c
  · simp only [hq, if_true]
    by_cases hfq : trim (c.takeWhile (fun x => !isQM x)) = []
    · simp [hfq, h]
    · simp only [hfq, if_neg]
      exact trim_append_last isWS_qm (trim_idem _) hfq
  · simpa [hq] using h

theorem finalizeQ_trimmed {c : Str} (h : trim c = c) :
    trim (finalizeQ c) = finalizeQ c := by
  unfold finalizeQ
  by_cases hc : c = []
  · simp [hc, trim_nil]
  · by_cases hl : c.getLast? = some '?'
    · simpa [hc, hl] using h
    · simp only [hc, hl, if_neg, if_false]
      exact trim_append_last isWS_qm h hc

theorem tpCandidate_trimmed (raw : Str) :
    trim (tpCandidate raw) = tpCandidate raw := trim_idem _

theorem tpQuestion_trimmed (raw : Str) :
    trim (tpQuestion raw) = tpQuestion raw :=
  finalizeQ_trimmed (truncFirstQ_trimmed (tpCandidate_trimmed raw))

theorem jsonExtract_shape {raw q : Str} (h : jsonExtract raw = some q) :
    q ≠ [] ∧ trim q = q := by
  unfold jsonExtract at h
  split at h
  · exact absurd h (by simp)
  · split at h
    · exact absurd h (by simp)
    · split at h
      · split at h
        · exact absurd h (by simp)
        · rename_i q0 heq hne
          cases h
          exact ⟨hne, trim_idem q0⟩
      · exact absurd h (by simp)

theorem finalGuard_some {q s : Str} (h : finalGuard q = some s) :
    s = q ∧ q ≠ [] ∧ q ≠ ['?'] := by
  unfold finalGuard at h
  by_cases hg : q = [] ∨ q = ['?']
  · rw [if_pos hg] at h
    exact absurd h (by simp)
  · rw [if_neg hg] at h
    cases h
    push_neg at hg
    exact ⟨rfl, hg.1, hg.2⟩

theorem parseModelQuestion_some_shape {raw s : Str}
    (h : parseModelQuestion raw = some s) : s ≠ [] ∧ trim s = s := by
  unfold parseModelQuestion at h
  split at h
  · rename_i q hj
    cases h
    exact jsonExtract_shape hj
  · obtain ⟨hs, hne, hq⟩ := finalGuard_some h
    refine ⟨by rw [hs]; exact hne, by rw [hs]; exact tpQuestion_trimmed (trim raw)⟩

theorem find_eq_filter_head (p : Str → Bool) (l : List Str) :
    l.find? p = (l.filter p).head? := (List.filter_head? p l).symm

theorem selectCandidate_eq (lines : List Str) :
    selectCandidate lines = selectCandidateSpec lines := by
  unfold selectCandidate selectCandidateSpec
  rw [← find_eq_filter_head hasQM, ← find_eq_filter_head questionWordTest,
    ← find_eq_filter_head (fun l => decide (5 < l.length))]
  cases lines.find? hasQM with
  | some l => rfl
  | none =>
    cases lines.find? questionWordTest with
    | some l => rfl
    | none =>
      cases (lines.map stripNumReq).find? (fun l => decide (5 < l.length)) with
      | some l => rfl
      | none => simp [List.headD_eq_head?_getD, Option.orElse]

/-- C1 (counterexample): the input `{"question":"a? b"}` takes the JSON
short-circuit, which returns the trimmed `question` field verbatim, so
`parseModelQuestion` yields the present result `"a? b"`, which does not end
in `?` and contains an interior `?` — refuting the claimed invariant that a
present result ends with exactly one `?` and contains no other `?`. -/
theorem c1_invariant_counterexample :
    parseModelQuestion (strL "\x7b\"question\":\"a? b\"\x7d") = some (strL "a? b") ∧
    (strL "a? b").getLast? ≠ some '?' ∧
    hasQM (strL "a? b") = true := by
  refine ⟨by decide, by decide, by decide⟩

/-- C1 (amended): for every input string, a present result of
`parseModelQuestion` is non-empty and equal to its own trim; the trailing-`?`
and no-interior-`?` parts of the claim do not hold (the JSON path returns
the `question` field verbatim, and the heuristic path keeps a candidate
whose text before its first `?` is blank unchanged). -/
theorem c1_result_nonempty_trimmed (raw s : Str)
    (h : parseModelQuestion raw = some s) : s ≠ [] ∧ trim s = s :=
  parseModelQuestion_some_shape h

/-- Witness for C1 (amended) at the concrete input `"Hi?"`. -/
theorem c1_result_nonempty_trimmed_witness :
    strL "Hi?" ≠ [] ∧ trim (strL "Hi?") = strL "Hi?" :=
  c1_result_nonempty_trimmed (strL "Hi?") (strL "Hi?") (by decide)

/-- C2: whenever the trimmed input contains a greedy brace-delimited
substring that `JSON.parse` accepts as a value whose string field
`question` has non-empty trimmed content, `parseModelQuestion` returns that
trimmed content immediately, bypassing the heuristic fallback. -/
theorem c2_json_shortcircuit (raw sub : Str) (v : JVal) (q : Str)
    (hb : braceMatch (trim raw) = some sub)
    (hp : jsonParse sub = some v)
    (hf : questionField v = some q)
    (hq : trim q ≠ []) :
    parseModelQuestion raw = some (trim q) := by
  have hj : jsonExtract (trim raw) = some (trim q) := by
    simp only [jsonExtract, hb, hp, hf]
    rw [if_neg hq]
  simp only [parseModelQuestion, hj]

/-- Witness for C2 at the spec's concrete example
`extract('{"question":"Describe how a hash table works?"}')`. -/
theorem c2_json_shortcircuit_witness :
    parseModelQuestion (strL "\x7b\"question\":\"Describe how a hash table works?\"\x7d") =
      some (strL "Describe how a hash table works?") := by
  have h := c2_json_shortcircuit
    (strL "\x7b\"question\":\"Describe how a hash table works?\"\x7d")
    (strL "\x7b\"question\":\"Describe how a hash table works?\"\x7d")
    (JVal.obj [(strL "question", JVal.jstr (strL "Describe how a hash table works?"))])
    (strL "Describe how a hash table works?")
    (by decide) rfl (by decide) (by decide)
  rw [h]
  decide

/-- C4: `parseModelQuestion` is a total function on strings — every
evaluation reaches either `none` or a (non-empty) string result; in the
model every JavaScript exception path (`JSON.parse`) is confined to the
`try`/`catch` of the source and surfaces as falling through, never as a
thrown error. -/
theorem c4_total_never_throws (raw : Str) :
    parseModelQuestion raw = none ∨
    ∃ s, parseModelQuestion raw = some s ∧ s ≠ [] := by
  cases h : parseModelQuestion raw with
  | none => exact Or.inl rfl
  | some s => exact Or.inr ⟨s, rfl, (parseModelQuestion_some_shape h).1⟩

/-- C5: extraction failure is the explicit absent result: whenever the JSON
short-circuit does not fire and the final candidate (`question` variable) is
empty or exactly `"?"`, `parseModelQuestion` returns `none`; in particular
on `""`, `"   "` and `"?"`. -/
theorem c5_degenerate_rejected :
    (∀ raw : Str, jsonExtract (trim raw) = none →
      tpQuestion (trim raw) = [] ∨ tpQuestion (trim raw) = ['?'] →
      parseModelQuestion raw = none) ∧
    parseModelQuestion (strL "") = none ∧
    parseModelQuestion (strL "   ") = none ∧
    parseModelQuestion (strL "?") = none := by
  refine ⟨?_, by decide, by decide, by decide⟩
  intro raw hj hq
  simp only [parseModelQuestion, hj]
  unfold finalGuard
  rw [if_pos hq]

/-- Witness for C5 at the concrete input `""`. -/
theorem c5_degenerate_rejected_witness :
    parseModelQuestion (strL "") = none :=
  c5_degenerate_rejected.1 (strL "") (by decide) (Or.inl (by decide))

/-- C6: on the heuristic fallback path the candidate line is selected from
the trimmed non-empty lines in the claimed priority order — first line
containing `?`, else first line passing the case-insensitive whole-word
question-word test, else the first line whose content after stripping a
leading `<digits><. or )>` prefix is longer than 5 characters, else the
literal first line, else the empty string — and this is the selection the
test script's pipeline applies to `linesOf (cleanTextTP raw)`. -/
theorem c6_selection_priority :
    (∀ lines : List Str, selectCandidate lines = selectCandidateSpec lines) ∧
    (∀ raw : Str, tpCandidate raw =
      trim (stripLabelTP (stripNumReq (selectCandidateSpec (linesOf (cleanTextTP raw)))))) := by
  refine ⟨selectCandidate_eq, ?_⟩
  intro raw
  unfold tpCandidate
  rw [selectCandidate_eq]

theorem append_qm_ne_nil (fq : Str) : fq ++ ['?'] ≠ [] := by simp

theorem append_qm_ne_qm {fq : Str} (h : fq ≠ []) : fq ++ ['?'] ≠ ['?'] := by
  intro hcontra
  have hlen := congrArg List.length hcontra
  simp at hlen
  exact h hlen

theorem finalizeQ_append_qm {fq : Str} : finalizeQ (fq ++ ['?']) = fq ++ ['?'] := by
  unfold finalizeQ
  rw [if_neg (append_qm_ne_nil fq), List.getLast?_concat, if_pos rfl]

theorem finalGuard_append_qm {fq : Str} (h : fq ≠ []) :
    finalGuard (fq ++ ['?']) = some (fq ++ ['?']) := by
  unfold finalGuard
  rw [if_neg]
  rw [not_or]
  exact ⟨append_qm_ne_nil fq, append_qm_ne_qm h⟩

theorem getLast_ne_qm_of_no_qm {c : Str} (h : hasQM c = false) :
    c.getLast? ≠ some '?' := by
  intro hcon
  have hmem : '?' ∈ c := List.mem_of_mem_getLast? hcon
  have : hasQM c = true := by
    unfold hasQM
    rw [List.any_eq_true]
    exact ⟨'?', hmem, rfl⟩
  rw [this] at h
  cases h

/-- C3 (counterexample): on the input `"?foo?"`, the selected and normalized
candidate line contains a `?`, the text up to and including its first `?` is
just `"?"`, yet the extractor keeps the whole candidate `"?foo?"` (retaining
text after the first `?`): the `firstQ ? firstQ + '?' : candidateLine`
fallback skips the truncation when the text before the first `?` is blank,
refuting the claim as stated (which would force the result `"?"`, hence
rejection). -/
theorem c3_truncation_counterexample :
    hasQM (tpCandidate (trim (strL "?foo?"))) = true ∧
    (tpCandidate (trim (strL "?foo?"))).takeWhile (fun x => !isQM x) ++ ['?'] = strL "?" ∧
    parseModelQuestion (strL "?foo?") = some (strL "?foo?") ∧
    parseModelQuestion (strL "?foo?") ≠ some (strL "?") := by
  refine ⟨by decide, by decide, by decide, by decide⟩

/-- C3 (amended): on the heuristic fallback path, when the normalized
candidate contains a `?` and the text before its first `?` is non-blank
after trimming, the result is exactly that trimmed prefix plus a single
appended `?` (everything after the first `?` is discarded); when the
candidate is blank before its first `?` it is kept unchanged (not part of
this statement, see the counterexample); and a non-empty candidate without
a `?` gets exactly one `?` appended; in particular the claim's example
`extract("What is a REST API? Also, explain GraphQL differences?")`
returns `"What is a REST API?"`. -/
theorem c3_first_question_truncation :
    (∀ raw : Str, jsonExtract (trim raw) = none →
      hasQM (tpCandidate (trim raw)) = true →
      trim ((tpCandidate (trim raw)).takeWhile (fun x => !isQM x)) ≠ [] →
      parseModelQuestion raw =
        some (trim ((tpCandidate (trim raw)).takeWhile (fun x => !isQM x)) ++ ['?'])) ∧
    (∀ raw : Str, jsonExtract (trim raw) = none →
      hasQM (tpCandidate (trim raw)) = false →
      tpCandidate (trim raw) ≠ [] →
      parseModelQuestion raw = some (tpCandidate (trim raw) ++ ['?'])) ∧
    parseModelQuestion (strL "What is a REST API? Also, explain GraphQL differences?") =
      some (strL "What is a REST API?") := by
  refine ⟨?_, ?_, by decide⟩
  · intro raw hj hq hfq
    have ht : truncFirstQ (tpCandidate (trim raw)) =
        trim ((tpCandidate (trim raw)).takeWhile (fun x => !isQM x)) ++ ['?'] := by
      unfold truncFirstQ
      rw [if_pos hq, if_neg hfq]
    simp only [parseModelQuestion, hj]
    unfold tpQuestion
    rw [ht, finalizeQ_append_qm, finalGuard_append_qm hfq]
  · intro raw hj hq hne
    have ht : truncFirstQ (tpCandidate (trim raw)) = tpCandidate (trim raw) := by
      unfold truncFirstQ
      rw [if_neg]
      simp [hq]
    simp only [parseModelQuestion, hj]
    unfold tpQuestion
    rw [ht]
    unfold finalizeQ
    rw [if_neg hne, if_neg (getLast_ne_qm_of_no_qm hq), finalGuard_append_qm hne]

/-- Witness for C3 (amended) at the concrete input `"A? B?"`. -/
theorem c3_first_question_truncation_witness :
    parseModelQuestion (strL "A? B?") = some (strL "A?") := by
  have h := c3_first_question_truncation.1 (strL "A? B?") (by decide) (by decide) (by decide)
  rw [h]
  decide

theorem gq_greedy_json {raw sub : Str} {v : JVal} {q : Str}
    (hw : jsonParse (trim raw) = none)
    (hb : braceMatch (trim raw) = some sub)
    (hp : jsonParse sub = some v)
    (hf : questionField v = some q)
    (hq : trim q ≠ []) :
    gqExtract raw = some (trim q) := by
  have hj : jsonExtract (trim raw) = some (trim q) := by
    simp only [jsonExtract, hb, hp, hf]
    rw [if_neg hq]
  have hwhole : gqJsonWhole (trim raw) = none := by
    simp only [gqJsonWhole, hw]
  simp only [gqExtract, hwhole, hj]

/-- C7 (counterexample): the two extraction copies are not behaviorally
equivalent: on the raw output `"a  b?"` the `generateQuestion` copy
collapses the double space (via `keepOnlyFirstQuestion`) and returns
`"a b?"`, while the test script's `parseModelQuestion` returns `"a  b?"`. -/
theorem c7_equivalence_counterexample :
    gqExtract (strL "a  b?") = some (strL "a b?") ∧
    parseModelQuestion (strL "a  b?") = some (strL "a  b?") ∧
    gqExtract (strL "a  b?") ≠ parseModelQuestion (strL "a  b?") := by
  refine ⟨by decide, by decide, by decide⟩

/-- C7 (amended): the two copies are not equivalent in general (they differ
on the fallback path — whitespace collapsing, connector-word and
sentence-end truncation, a different leading-number regex — and
`generateQuestion` first tries `JSON.parse` on the whole response); they do
agree whenever the whole trimmed response is not itself valid JSON but its
greedy brace-delimited substring parses to an object whose string
`question` field has non-empty trim: both then return that trimmed value. -/
theorem c7_agree_on_greedy_json (raw sub : Str) (v : JVal) (q : Str)
    (hw : jsonParse (trim raw) = none)
    (hb : braceMatch (trim raw) = some sub)
    (hp : jsonParse sub = some v)
    (hf : questionField v = some q)
    (hq : trim q ≠ []) :
    gqExtract raw = some (trim q) ∧ parseModelQuestion raw = some (trim q) := by
  have hj : jsonExtract (trim raw) = some (trim q) := by
    simp only [jsonExtract, hb, hp, hf]
    rw [if_neg hq]
  exact ⟨gq_greedy_json hw hb hp hf hq, by simp only [parseModelQuestion, hj]⟩

/-- Witness for C7 (amended) at the concrete input `x {"question":"hi"}`. -/
theorem c7_agree_on_greedy_json_witness :
    gqExtract (strL "x \x7b\"question\":\"hi\"\x7d") = some (strL "hi") ∧
    parseModelQuestion (strL "x \x7b\"question\":\"hi\"\x7d") = some (strL "hi") := by
  have h := c7_agree_on_greedy_json (strL "x \x7b\"question\":\"hi\"\x7d")
    (strL "\x7b\"question\":\"hi\"\x7d")
    (JVal.obj [(strL "question", JVal.jstr (strL "hi"))]) (strL "hi")
    rfl (by decide) rfl (by decide) (by decide)
  refine ⟨?_, ?_⟩
  · rw [h.1]; decide
  · rw [h.2]; decide

/-- C9: when the whole trimmed response fails `JSON.parse` but its greedy
brace-delimited substring parses to an object with a non-empty string
`question` field, `generateQuestion` returns `parsed.question` trimmed
verbatim — no first-`?` truncation, no connector-word truncation, no
trailing-`?` enforcement — so on this path the result can contain several
`?` characters (`"A? B?"`) or lack a trailing `?` (`"abc"`). -/
theorem c9_gq_greedy_json_verbatim :
    (∀ (raw sub : Str) (v : JVal) (q : Str),
      jsonParse (trim raw) = none →
      braceMatch (trim raw) = some sub →
      jsonParse sub = some v →
      questionField v = some q →
      trim q ≠ [] →
      gqExtract raw = some (trim q)) ∧
    gqExtract (strL "x \x7b\"question\":\"A? B?\"\x7d") = some (strL "A? B?") ∧
    (strL "A? B?").count '?' = 2 ∧
    gqExtract (strL "x \x7b\"question\":\"abc\"\x7d") = some (strL "abc") ∧
    (strL "abc").getLast? ≠ some '?' := by
  refine ⟨fun raw sub v q hw hb hp hf hq => gq_greedy_json hw hb hp hf hq,
    by decide, by decide, by decide, by decide⟩

/-- Witness for C9 at the concrete input `x {"question":"A? B?"}`. -/
theorem c9_gq_greedy_json_verbatim_witness :
    gqExtract (strL "x \x7b\"question\":\"A? B?\"\x7d") = some (strL "A? B?") := by
  have h := c9_gq_greedy_json_verbatim.1 (strL "x \x7b\"question\":\"A? B?\"\x7d")
    (strL "\x7b\"question\":\"A? B?\"\x7d")
    (JVal.obj [(strL "question", JVal.jstr (strL "A? B?"))]) (strL "A? B?")
    rfl (by decide) rfl (by decide) (by decide)
  rw [h]
  decide

/-- C10: the public interface of `parseModelQuestion` tolerates a missing
argument: a `null`/`undefined` or empty-string input is coerced to the
empty string by `(raw || '')` and yields `none` without throwing, and a
present string argument behaves exactly like the string-level function. -/
theorem c10_nullable_interface :
    parseModelQuestionJS none = none ∧
    parseModelQuestionJS (some (strL "")) = none ∧
    (∀ s : Str, parseModelQuestionJS (some s) = parseModelQuestion s) ∧
    (∀ r : Option Str, parseModelQuestionJS r = parseModelQuestion (orEmpty r)) := by
  refine ⟨by decide, by decide, ?_, fun r => rfl⟩
  intro s
  simp only [parseModelQuestionJS, orEmpty]
  by_cases h : s = []
  · rw [if_pos h, h]
  · rw [if_neg h]

theorem collapseDesc_eq : ∀ s : Str, collapseDesc s = collapseWS s := by
  intro s
  unfold collapseWS
  induction s with
  | nil => rfl
  | cons c cs ih =>
    cases cs with
    | nil =>
      by_cases hc : isWS c
      · simp [collapseDesc, collapseWSAux, hc]
      · simp [collapseDesc, collapseWSAux, hc]
    | cons d cs2 =>
      by_cases hc : isWS c
      · by_cases hd : isWS d
        · simp [collapseDesc, collapseWSAux, hc, hd, ih]
        · simp [collapseDesc, collapseWSAux, hc, hd, ih]
      · simp [collapseDesc, collapseWSAux, hc, ih]

theorem connBoundaryAtB_zero (s : Str) (b : Bool) :
    connBoundaryAtB s b 0 = (!b && wordHitAt connectorWords s) := by
  simp [connBoundaryAtB]

theorem connBoundaryAtB_succ (c : Char) (cs : Str) (b : Bool) (j : Nat) :
    connBoundaryAtB (c :: cs) b (j + 1) = connBoundaryAtB cs (isWordChar c) j := by
  unfold connBoundaryAtB
  cases j with
  | zero => simp
  | succ k => simp

theorem filter_map_succ (p : Nat → Bool) (l : List Nat) :
    (l.map Nat.succ).filter p = (l.filter (fun j => p (j + 1))).map Nat.succ := by
  induction l with
  | nil => rfl
  | cons a t ih =>
    simp only [List.map_cons, List.filter_cons, Nat.succ_eq_add_one, ih]
    by_cases h : p (a + 1) = true
    · simp [h]
    · simp [h]

theorem firstIdxB_cons (c : Char) (cs : Str) (b : Bool) :
    firstIdxB (c :: cs) b =
      if (!b && wordHitAt connectorWords (c :: cs)) = true then 0
      else firstIdxB cs (isWordChar c) + 1 := by
  unfold firstIdxB
  rw [List.length_cons, List.range_succ_eq_map, List.filter_cons, connBoundaryAtB_zero]
  by_cases h0 : (!b && wordHitAt connectorWords (c :: cs)) = true
  · rw [if_pos h0, if_pos h0]
    rfl
  · rw [if_neg h0, if_neg h0, filter_map_succ,
      List.filter_congr (fun j _ => connBoundaryAtB_succ c cs b j),
      List.head?_map]
    cases ((List.range cs.length).filter (connBoundaryAtB cs (isWordChar c))).head? with
    | none => rfl
    | some j => rfl

theorem cutConnAux_eq_take (s : Str) :
    ∀ b : Bool, cutConnAux s b = s.take (firstIdxB s b) := by
  induction s with
  | nil => intro b; rfl
  | cons c cs ih =>
    intro b
    rw [firstIdxB_cons]
    by_cases h : (!b && wordHitAt connectorWords (c :: cs)) = true
    · rw [if_pos h]
      simp [cutConnAux, h]
    · rw [if_neg h]
      simp only [cutConnAux, h, if_false, List.take_succ_cons, ih (isWordChar c)]
      simp [h]

theorem connCutDesc_eq (s : Str) : connCutDesc s = cutConn s := by
  unfold connCutDesc cutConn
  rw [cutConnAux_eq_take]

theorem searchIdx_eq (p : Char → Bool) : ∀ s : Str,
    searchIdx p s =
      if (s.takeWhile (fun c => !p c)).length < s.length
      then some (s.takeWhile (fun c => !p c)).length else none := by
  intro s
  induction s with
  | nil => simp [searchIdx]
  | cons c cs ih =>
    by_cases hc : p c = true
    · simp [searchIdx, hc, List.takeWhile_cons]
    · have hc' : p c = false := by
        cases hpc : p c
        · rfl
        · exact absurd hpc hc
      rw [show searchIdx p (c :: cs) = (searchIdx p cs).map (· + 1) by simp [searchIdx, hc'], ih,
        List.takeWhile_cons]
      by_cases hlt : (cs.takeWhile (fun x => !p x)).length < cs.length
      · simp [hc', hlt, Nat.succ_lt_succ_iff]
      · simp [hc', hlt, Nat.succ_lt_succ_iff]

theorem sentTruncDesc_eq (c : Str) : sentTruncDesc c = sentTrunc c := by
  unfold sentTrunc sentTruncDesc
  rw [searchIdx_eq]
  by_cases h : (c.takeWhile (fun x => !isSentEnd x)).length < c.length
  · simp [h]
  · simp [h]

theorem gqCoreDesc_eq (c : Str) : gqCoreDesc c = gqCore c := by
  unfold gqCoreDesc gqCore
  rw [sentTruncDesc_eq]

/-- C8: `keepOnlyFirstQuestion` behaves exactly as described — it collapses
all whitespace runs to single spaces, strips a leading numbering or
`Question`/`Q`/`Ask` label, discards everything from the first
case-insensitive whole-word connector (`Also`, `Additionally`, `And then`,
`Next`, `Follow up`, `Follow-up`, `As well as`) onward, and, when the
remaining text contains no `?`, truncates it just after the first `.` or
`!`; stated as equality with the claim-structured restatement
`keepOnlyFirstQuestionDesc`, whose stages are implemented independently. -/
theorem c8_keep_only_first_question (text : Str) :
    keepOnlyFirstQuestion text = keepOnlyFirstQuestionDesc text := by
  unfold keepOnlyFirstQuestion keepOnlyFirstQuestionDesc
  by_cases h : text = []
  · rw [if_pos h, if_pos h]
  · rw [if_neg h, if_neg h, collapseDesc_eq, connCutDesc_eq, gqCoreDesc_eq]
